import Mathlib

/-!
Shallow embedding of `options_price_sim.py`: a Monte-Carlo delta-hedging
simulator for European options with a closed-form Black-Scholes reference
pricer.  Python floats are modelled as real numbers; functions of the
source that can raise (domain errors, division by zero, out-of-bounds
array writes) are modelled as `Option`-valued functions returning `none`
exactly where the source raises.
-/

namespace OptionsSim

open MeasureTheory

/-- Embedding of `n_prime(x)`: the standard normal density
`1/math.sqrt(2*math.pi) * math.exp((-x**2)/2)`. -/
noncomputable def n_prime (x : ℝ) : ℝ :=
  1 / Real.sqrt (2 * Real.pi) * Real.exp ((-x ^ 2) / 2)

/-- Embedding of `scipy.stats.norm.cdf`: the standard normal cumulative
distribution function, the integral of the standard normal density over
`(-∞, x]`. -/
noncomputable def normCdf (x : ℝ) : ℝ := ∫ u in Set.Iic x, n_prime u

lemma n_prime_nonneg (x : ℝ) : 0 ≤ n_prime x := by
  unfold n_prime
  positivity

lemma n_prime_even (x : ℝ) : n_prime (-x) = n_prime x := by
  unfold n_prime
  ring_nf

lemma n_prime_eq (x : ℝ) :
    n_prime x = (1 / Real.sqrt (2 * Real.pi)) * Real.exp (-(1 / 2 : ℝ) * x ^ 2) := by
  unfold n_prime
  ring_nf

lemma integrable_n_prime : Integrable n_prime := by
  have h : Integrable fun x : ℝ => Real.exp (-(1 / 2 : ℝ) * x ^ 2) :=
    integrable_exp_neg_mul_sq (by norm_num)
  have := h.const_mul (1 / Real.sqrt (2 * Real.pi))
  refine this.congr ?_
  filter_upwards with x
  rw [n_prime_eq]

lemma sqrt_two_pi_pos : 0 < Real.sqrt (2 * Real.pi) :=
  Real.sqrt_pos.mpr (by positivity)

lemma integral_n_prime : ∫ x : ℝ, n_prime x = 1 := by
  have h : ∫ x : ℝ, Real.exp (-(1 / 2 : ℝ) * x ^ 2) = Real.sqrt (Real.pi / (1 / 2)) :=
    integral_gaussian (1 / 2)
  calc ∫ x : ℝ, n_prime x
      = ∫ x : ℝ, (1 / Real.sqrt (2 * Real.pi)) * Real.exp (-(1 / 2 : ℝ) * x ^ 2) := by
        congr 1
        funext x
        rw [n_prime_eq]
    _ = (1 / Real.sqrt (2 * Real.pi)) * ∫ x : ℝ, Real.exp (-(1 / 2 : ℝ) * x ^ 2) :=
        integral_mul_left _ _
    _ = (1 / Real.sqrt (2 * Real.pi)) * Real.sqrt (2 * Real.pi) := by
        rw [h, show Real.pi / (1 / 2 : ℝ) = 2 * Real.pi by ring]
    _ = 1 := by
        field_simp

lemma normCdf_nonneg (x : ℝ) : 0 ≤ normCdf x :=
  setIntegral_nonneg measurableSet_Iic fun u _ => n_prime_nonneg u

lemma normCdf_le_one (x : ℝ) : normCdf x ≤ 1 := by
  have h := setIntegral_le_integral (s := Set.Iic x) integrable_n_prime
    (Filter.Eventually.of_forall fun u => n_prime_nonneg u)
  calc normCdf x ≤ ∫ u : ℝ, n_prime u := h
    _ = 1 := integral_n_prime

lemma normCdf_add_normCdf_neg (x : ℝ) : normCdf x + normCdf (-x) = 1 := by
  have hneg : normCdf (-x) = ∫ u in Set.Ioi x, n_prime u := by
    calc normCdf (-x) = ∫ u in Set.Iic (-x), n_prime u := rfl
      _ = ∫ u in Set.Iic (-x), n_prime (-u) := by
          refine setIntegral_congr_fun measurableSet_Iic fun u _ => ?_
          rw [n_prime_even]
      _ = ∫ u in Set.Ioi (-(-x)), n_prime u := integral_comp_neg_Iic _ _
      _ = ∫ u in Set.Ioi x, n_prime u := by rw [neg_neg]
  rw [hneg]
  calc (∫ u in Set.Iic x, n_prime u) + ∫ u in Set.Ioi x, n_prime u
      = ∫ u : ℝ, n_prime u :=
        intervalIntegral.integral_Iic_add_Ioi integrable_n_prime.integrableOn
          integrable_n_prime.integrableOn
    _ = 1 := integral_n_prime

lemma normCdf_zero : normCdf 0 = 1 / 2 := by
  have h := normCdf_add_normCdf_neg 0
  rw [neg_zero] at h
  linarith

/-! ### Closed-Form Pricer (`black_scholes_form`) -/

/-- Value of `d1` as computed by `black_scholes_form`:
`1/(sigma*math.sqrt(t)) * (math.log(s_t/k) + (rf-q + (sigma**2)/2) * t)`. -/
noncomputable def bs_d1 (t k s_t rf sigma q : ℝ) : ℝ :=
  1 / (sigma * Real.sqrt t) * (Real.log (s_t / k) + (rf - q + sigma ^ 2 / 2) * t)

/-- Value of `d2` as computed by `black_scholes_form`: `d1 - sigma*(math.sqrt(t))`. -/
noncomputable def bs_d2 (t k s_t rf sigma q : ℝ) : ℝ :=
  bs_d1 t k s_t rf sigma q - sigma * Real.sqrt t

/-- Call price `c = norm.cdf(d1) * s_term - norm.cdf(d2) * pv` with
`pv = k*np.exp(-rf*t)` and `s_term = s_t * math.exp(-q*t)`. -/
noncomputable def bs_call (t k s_t rf sigma q : ℝ) : ℝ :=
  normCdf (bs_d1 t k s_t rf sigma q) * (s_t * Real.exp (-q * t)) -
    normCdf (bs_d2 t k s_t rf sigma q) * (k * Real.exp (-rf * t))

/-- Put price `p = -1 * norm.cdf(-d1) * s_term + norm.cdf(-d2) * pv`. -/
noncomputable def bs_put (t k s_t rf sigma q : ℝ) : ℝ :=
  -1 * normCdf (-bs_d1 t k s_t rf sigma q) * (s_t * Real.exp (-q * t)) +
    normCdf (-bs_d2 t k s_t rf sigma q) * (k * Real.exp (-rf * t))

/-- Embedding of `black_scholes_form(t, k, s_t, rf, sigma, q)`.  The guards
mirror, in evaluation order, the places where the Python source raises:
`math.sqrt(t)` raises a domain error for `t < 0`; `1/(sigma*math.sqrt(t))`
raises `ZeroDivisionError` when `sigma*sqrt(t) = 0`; `s_t/k` raises
`ZeroDivisionError` when `k = 0`; `math.log(s_t/k)` raises a domain error
when `s_t/k <= 0`.  On the guarded domain Python's `sqrt`, `log`, `exp` and
division agree with the Mathlib functions used by the value definitions. -/
noncomputable def black_scholes_form (t k s_t rf sigma q : ℝ) :
    Option (ℝ × ℝ × ℝ × ℝ) :=
  if t < 0 then none
  else if sigma * Real.sqrt t = 0 then none
  else if k = 0 then none
  else if s_t / k ≤ 0 then none
  else some (bs_call t k s_t rf sigma q, bs_put t k s_t rf sigma q,
    bs_d1 t k s_t rf sigma q, bs_d2 t k s_t rf sigma q)

/-! ### Greeks Calculator (`get_greeks`) -/

/-- Result variant of `get_greeks`: the source returns a 2-vector of deltas
when `only_delta=True`, a scalar vega when `only_vega=True`, and otherwise a
pair of 4-tuples `(delta, gamma, vega, theta)` for the call and put sides. -/
inductive GreeksResult where
  | deltaOnly (delta_c delta_p : ℝ) : GreeksResult
  | vegaOnly (vega : ℝ) : GreeksResult
  | full (call put : ℝ × ℝ × ℝ × ℝ) : GreeksResult

set_option linter.unusedVariables false in
/-- Embedding of `get_greeks(t, k, r, sigma, d1, d2, s, q, only_delta, only_vega)`.
The source computes `n_prime_d2` in the full branch without using it; the
binding is kept to mirror the code. -/
noncomputable def get_greeks (t k r sigma d1 d2 s q : ℝ)
    (only_delta only_vega : Bool) : GreeksResult :=
  let cdf_d1 := normCdf d1
  let n_prime_d1 := n_prime d1
  if only_delta then
    let delta_c := cdf_d1 * Real.exp (-q * t)
    let delta_p := (delta_c - 1) * Real.exp (-q * t)
    GreeksResult.deltaOnly delta_c delta_p
  else if only_vega then
    GreeksResult.vegaOnly (s * n_prime_d1 * Real.sqrt t * Real.exp (-q * t))
  else
    let n_prime_d2 := n_prime d2
    let cdf_d2 := normCdf d2
    let neg_cdf_d2 := normCdf (-1 * d2)
    let delta_c := cdf_d1 * Real.exp (-q * t)
    let delta_p := delta_c - Real.exp (-q * t)
    let gamma := n_prime_d1 / (s * sigma * Real.sqrt t) * Real.exp (-q * t)
    let vega := s * n_prime_d1 * Real.sqrt t * Real.exp (-q * t)
    let theta_c := -1 * (s * n_prime_d1 * sigma * Real.exp (-q * t)) /
        (2 * t ^ ((0.5 : ℝ))) - r * k * Real.exp (-r * t) * cdf_d2 +
        q * s * Real.exp (-q * t) * cdf_d1
    let theta_p := -1 * (s * n_prime_d1 * sigma * Real.exp (-q * t)) /
        (2 * t ^ ((0.5 : ℝ))) + r * k * Real.exp (-r * t) * neg_cdf_d2 -
        q * s * Real.exp (-q * t) * (1 - cdf_d1)
    GreeksResult.full (delta_c, gamma, vega, theta_c) (delta_p, gamma, vega, theta_p)

/-- Projection of a `GreeksResult` onto its (call delta, put delta) pair;
the `vegaOnly` variant carries no deltas. -/
def getDeltas : GreeksResult → ℝ × ℝ
  | GreeksResult.deltaOnly dc dp => (dc, dp)
  | GreeksResult.vegaOnly _ => (0, 0)
  | GreeksResult.full c p => (c.1, p.1)

/-! ### Path Simulator (`sim`) -/

/-- Python `int()` conversion: truncation toward zero. -/
noncomputable def pyInt (x : ℝ) : ℤ := if 0 ≤ x then ⌊x⌋ else ⌈x⌉

/-- Number of simulation steps `int(t*days)`: the length of the arrays
`rands`, `st_s`, `deltas` and `cf` allocated by `sim`. -/
noncomputable def simN (t days : ℝ) : ℤ := pyInt (t * days)

/-- Length of the per-path arrays as a natural number. -/
noncomputable def simNn (t days : ℝ) : ℕ := (simN t days).toNat

/-- Per-step volatility `sigma_daily = sigma / math.sqrt(days)`. -/
noncomputable def sigma_daily (sigma days : ℝ) : ℝ := sigma / Real.sqrt days

/-- Embedding of the price-path array `st_s`:
`st_s[0] = start` and, for `i >= 1` (loop at line 120-121 of the source),
`st_s[i] = st_s[i-1] + st_s[i-1]*(r-q)/days + st_s[i-1]*sigma_daily*rands[i-1]`.
The source only materialises indices below `int(t*days)`; the recursion is
total in the index. -/
noncomputable def st_s (r q sigma start days : ℝ) (rands : ℕ → ℝ) : ℕ → ℝ
  | 0 => start
  | i + 1 =>
      st_s r q sigma start days rands i +
        st_s r q sigma start days rands i * (r - q) / days +
        st_s r q sigma start days rands i * sigma_daily sigma days * rands i

/-- Remaining time `term_t = t - i/days` recomputed inside the loop. -/
noncomputable def simTerm (t days : ℝ) (i : ℕ) : ℝ := t - i / days

/-- The `d1` expression of `sim` at price `price` and remaining time `term`:
`1/(sigma_daily*math.sqrt(term)) * (math.log(price/k) + ((r-q)/days + (sigma_daily**2)/2) * term)`. -/
noncomputable def sim_d1 (r sigma days k q price term : ℝ) : ℝ :=
  1 / (sigma_daily sigma days * Real.sqrt term) *
    (Real.log (price / k) + ((r - q) / days + (sigma_daily sigma days) ^ 2 / 2) * term)

/-- The `d2` expression of `sim`: `d1 - sigma_daily*(math.sqrt(term))`. -/
noncomputable def sim_d2 (r sigma days k q price term : ℝ) : ℝ :=
  sim_d1 r sigma days k q price term - sigma_daily sigma days * Real.sqrt term

/-- Embedding of the `deltas` array of `sim`: index 0 is the snapshot taken
before the loop at remaining time `t` and price `start` (lines 113-115);
index `i+1` is the snapshot taken inside the loop at remaining time
`t - (i+1)/days` and price `st_s[i+1]` (lines 122-125).  Every snapshot is a
`get_greeks(..., only_delta=True)` call with per-step rate `r/days` and
per-step volatility `sigma_daily`. -/
noncomputable def sim_deltas (t r sigma start days k q : ℝ) (rands : ℕ → ℝ) :
    ℕ → ℝ × ℝ
  | 0 =>
      getDeltas (get_greeks t k (r / days) (sigma_daily sigma days)
        (sim_d1 r sigma days k q start t) (sim_d2 r sigma days k q start t)
        start q true false)
  | i + 1 =>
      getDeltas (get_greeks (simTerm t days (i + 1)) k (r / days)
        (sigma_daily sigma days)
        (sim_d1 r sigma days k q (st_s r q sigma start days rands (i + 1))
          (simTerm t days (i + 1)))
        (sim_d2 r sigma days k q (st_s r q sigma start days rands (i + 1))
          (simTerm t days (i + 1)))
        (st_s r q sigma start days rands (i + 1)) q true false)

/-- Embedding of the cash-flow array `cf` of `sim` (lines 128-134):
`cf[0] = (c - deltas[0][0]*start, p - deltas[0][1]*start)` where `(c, p)` is
the closed-form price at inception, and for `i >= 1`
`cf[i] = -st_s[i] * (deltas[i] - deltas[i-1])` componentwise. -/
noncomputable def sim_cf (t r rf sigma start days k q : ℝ) (rands : ℕ → ℝ) :
    ℕ → ℝ × ℝ
  | 0 =>
      (bs_call t k start rf sigma q + -1 * (sim_deltas t r sigma start days k q rands 0).1 * start,
       bs_put t k start rf sigma q + -1 * (sim_deltas t r sigma start days k q rands 0).2 * start)
  | i + 1 =>
      (-1 * st_s r q sigma start days rands (i + 1) *
          ((sim_deltas t r sigma start days k q rands (i + 1)).1 -
            (sim_deltas t r sigma start days k q rands i).1),
       -1 * st_s r q sigma start days rands (i + 1) *
          ((sim_deltas t r sigma start days k q rands (i + 1)).2 -
            (sim_deltas t r sigma start days k q rands i).2))

/-- Embedding of the compounded-cash array `total_cf` of `sim`
(lines 142-145): `total_cf[0] = cf[0]` and
`total_cf[i] = total_cf[i-1]*math.exp(rf/days) + cf[i]` for `i >= 1`. -/
noncomputable def sim_total_cf (t r rf sigma start days k q : ℝ) (rands : ℕ → ℝ) :
    ℕ → ℝ × ℝ
  | 0 => sim_cf t r rf sigma start days k q rands 0
  | i + 1 =>
      ((sim_total_cf t r rf sigma start days k q rands i).1 * Real.exp (rf / days) +
          (sim_cf t r rf sigma start days k q rands (i + 1)).1,
       (sim_total_cf t r rf sigma start days k q rands i).2 * Real.exp (rf / days) +
          (sim_cf t r rf sigma start days k q rands (i + 1)).2)

/-- Total cash flow `np.sum(cf, axis=0)` over the `int(t*days)` rows. -/
noncomputable def sim_cf_sum (t r rf sigma start days k q : ℝ) (rands : ℕ → ℝ) : ℝ × ℝ :=
  (∑ i ∈ Finset.range (simNn t days), (sim_cf t r rf sigma start days k q rands i).1,
   ∑ i ∈ Finset.range (simNn t days), (sim_cf t r rf sigma start days k q rands i).2)

/-- Raw hedging P&L of `sim` (lines 137-139):
`pnl = -sum((st_s[i+1]-st_s[i]) * deltas[i])` over `i = 0..N-2`, per side. -/
noncomputable def sim_pnl (t r sigma start days k q : ℝ) (rands : ℕ → ℝ) : ℝ × ℝ :=
  (-1 * ∑ i ∈ Finset.range (simNn t days - 1),
      (st_s r q sigma start days rands (i + 1) - st_s r q sigma start days rands i) *
        (sim_deltas t r sigma start days k q rands i).1,
   -1 * ∑ i ∈ Finset.range (simNn t days - 1),
      (st_s r q sigma start days rands (i + 1) - st_s r q sigma start days rands i) *
        (sim_deltas t r sigma start days k q rands i).2)

/-- Final compounded cash `cash = total_cf[-1]`, the row at index `N-1`. -/
noncomputable def sim_cash (t r rf sigma start days k q : ℝ) (rands : ℕ → ℝ) : ℝ × ℝ :=
  sim_total_cf t r rf sigma start days k q rands (simNn t days - 1)

/-- Per-path outputs of `sim` that the claims refer to. -/
structure SimOut where
  path : ℕ → ℝ
  cf_sum : ℝ × ℝ
  pnl : ℝ × ℝ
  final_deltas : ℝ × ℝ
  cash : ℝ × ℝ

/-- Embedding of `sim(t, r, rf, sigma, start, days, k, q)` with the shock
array `rands` passed explicitly.  When `int(t*days) <= 0` the source raises
before producing any result: `np.zeros(int(t*days))` allocates an empty (or
invalid) array and the assignment `st_s[0] = start` at line 110 is an
out-of-bounds write (`IndexError`); this is modelled by returning `none`. -/
noncomputable def sim (t r rf sigma start days k q : ℝ) (rands : ℕ → ℝ) :
    Option SimOut :=
  if simN t days ≤ 0 then none
  else some
    { path := st_s r q sigma start days rands
      cf_sum := sim_cf_sum t r rf sigma start days k q rands
      pnl := sim_pnl t r sigma start days k q rands
      final_deltas := sim_deltas t r sigma start days k q rands (simNn t days - 1)
      cash := sim_cash t r rf sigma start days k q rands }

/-! ### Simulation Aggregator (`run_sim`)

The aggregator calls `sim` once per path; path `j` receives the shock
sequence `shocks j`.  Whether a given call to `sim` succeeds does not
depend on the shocks, so the per-path outputs are expressed directly
through the component functions of `sim`. -/

/-- Terminal price of path `j`: `prices[j, -1]`, the entry of the price path
at index `int(t*days) - 1`. -/
noncomputable def rs_terminal (t r sigma start days : ℝ) (q : ℝ)
    (shocks : ℕ → ℕ → ℝ) (j : ℕ) : ℝ :=
  st_s r q sigma start days (shocks j) (simNn t days - 1)

/-- Average total cash flow `cf_total = np.sum(cf, axis=0)/runs` over the
rows of the per-path cash-flow-sum matrix. -/
noncomputable def rs_cf_total (t : ℝ) (runs : ℕ) (r rf sigma start days K q : ℝ)
    (shocks : ℕ → ℕ → ℝ) : ℝ × ℝ :=
  ((∑ j ∈ Finset.range runs, (sim_cf_sum t r rf sigma start days K q (shocks j)).1) / runs,
   (∑ j ∈ Finset.range runs, (sim_cf_sum t r rf sigma start days K q (shocks j)).2) / runs)

/-- Average raw P&L `pnl_total = np.sum(pnl, axis=0)/runs`. -/
noncomputable def rs_pnl_total (t : ℝ) (runs : ℕ) (r sigma start days K q : ℝ)
    (shocks : ℕ → ℕ → ℝ) : ℝ × ℝ :=
  ((∑ j ∈ Finset.range runs, (sim_pnl t r sigma start days K q (shocks j)).1) / runs,
   (∑ j ∈ Finset.range runs, (sim_pnl t r sigma start days K q (shocks j)).2) / runs)

/-- State of the `cash` matrix after `n` loop iterations.  The source
assigns with `cash[i:] = sim(...)[4]` (line 186), a slice assignment that
broadcasts path `i`'s final cash into every row at index `>= i`; rows start
as the zeros written by `np.zeros((runs, 2))`. -/
noncomputable def rs_cashMat (pathCash : ℕ → ℝ × ℝ) : ℕ → ℕ → ℝ × ℝ
  | 0 => fun _ => (0, 0)
  | n + 1 => fun j => if n ≤ j then pathCash n else rs_cashMat pathCash n j

/-- Average financed cash `cash_avg = np.sum(cash, axis=0)/runs`, computed
from the `cash` matrix as it stands after the loop over all paths. -/
noncomputable def rs_cash_avg (t : ℝ) (runs : ℕ) (r rf sigma start days K q : ℝ)
    (shocks : ℕ → ℕ → ℝ) : ℝ × ℝ :=
  ((∑ j ∈ Finset.range runs,
      (rs_cashMat (fun i => sim_cash t r rf sigma start days K q (shocks i)) runs j).1) / runs,
   (∑ j ∈ Finset.range runs,
      (rs_cashMat (fun i => sim_cash t r rf sigma start days K q (shocks i)) runs j).2) / runs)

/-- Empirical option price (line 197-199 of the source):
`un_cost = np.dstack((K-prices[:,-1], prices[:,-1]-K))` pairs the unclipped
difference `K - S_T` with the call column and `S_T - K` with the put
column, and `op_price = pnl_total + cf_total + np.sum(un_cost, axis=1)/runs`. -/
noncomputable def rs_op_price (t : ℝ) (runs : ℕ) (r rf sigma start days K q : ℝ)
    (shocks : ℕ → ℕ → ℝ) : ℝ × ℝ :=
  ((rs_pnl_total t runs r sigma start days K q shocks).1 +
      (rs_cf_total t runs r rf sigma start days K q shocks).1 +
      (∑ j ∈ Finset.range runs, (K - rs_terminal t r sigma start days q shocks j)) / runs,
   (rs_pnl_total t runs r sigma start days K q shocks).2 +
      (rs_cf_total t runs r rf sigma start days K q shocks).2 +
      (∑ j ∈ Finset.range runs, (rs_terminal t r sigma start days q shocks j - K)) / runs)

/-! ### Shared helper lemmas -/

lemma black_scholes_form_eq_some (t k s_t rf sigma q : ℝ)
    (ht : 0 < t) (hsig : sigma ≠ 0) (hk : k ≠ 0) (hr : 0 < s_t / k) :
    black_scholes_form t k s_t rf sigma q =
      some (bs_call t k s_t rf sigma q, bs_put t k s_t rf sigma q,
        bs_d1 t k s_t rf sigma q, bs_d2 t k s_t rf sigma q) := by
  have hsq : Real.sqrt t ≠ 0 := by
    rw [Ne, Real.sqrt_eq_zero']
    push_neg
    exact ht
  unfold black_scholes_form
  rw [if_neg (not_lt.mpr ht.le), if_neg (mul_ne_zero hsig hsq), if_neg hk,
    if_neg (not_le.mpr hr)]

lemma rs_cashMat_eq (pc : ℕ → ℝ × ℝ) :
    ∀ n j : ℕ, j < n → rs_cashMat pc n j = pc j := by
  intro n
  induction n with
  | zero => intro j hj; omega
  | succ m ih =>
      intro j hj
      by_cases h : m ≤ j
      · have hjm : j = m := by omega
        simp [rs_cashMat, h, hjm]
      · have hlt : j < m := by omega
        simp only [rs_cashMat, if_neg h]
        exact ih j hlt

lemma simTerm_pos (t days : ℝ) (i : ℕ) (hd : 0 < days) (hi : i < simNn t days) :
    0 < simTerm t days i := by
  have hposN : 0 < simN t days := by
    by_contra h
    push_neg at h
    have : simNn t days = 0 := by
      unfold simNn
      omega
    omega
  have hfloor : simN t days = ⌊t * days⌋ := by
    unfold simN pyInt
    split_ifs with h
    · rfl
    · exfalso
      push_neg at h
      have hceil : ⌈t * days⌉ ≤ 0 := Int.ceil_le.mpr (by exact_mod_cast h.le)
      unfold simN pyInt at hposN
      rw [if_neg (not_le.mpr h)] at hposN
      omega
  have hiZ : (i : ℤ) < ⌊t * days⌋ := by
    rw [← hfloor]
    exact Int.lt_toNat.mp hi
  have hle : ((i : ℤ) + 1 : ℝ) ≤ t * days := by
    have h1 : (i : ℤ) + 1 ≤ ⌊t * days⌋ := hiZ
    calc ((i : ℤ) + 1 : ℝ) ≤ (⌊t * days⌋ : ℝ) := by exact_mod_cast h1
      _ ≤ t * days := Int.floor_le _
  have hilt : (i : ℝ) < t * days := by
    push_cast at hle
    linarith
  unfold simTerm
  rw [sub_pos, div_lt_iff₀ hd]
  linarith [hilt]

lemma simTerm_zero (t days : ℝ) : simTerm t days 0 = t := by
  unfold simTerm
  simp

lemma normCdf_mul_exp_bounds (x e : ℝ) (he : 0 < e) (he1 : e ≤ 1) :
    0 ≤ normCdf x * e ∧ normCdf x * e ≤ e ∧
      -e ≤ (normCdf x * e - 1) * e ∧ (normCdf x * e - 1) * e ≤ 0 := by
  have h0 := normCdf_nonneg x
  have h1 := normCdf_le_one x
  have hc : normCdf x * e ≤ e := by nlinarith
  refine ⟨by positivity, hc, ?_, ?_⟩
  · nlinarith [mul_nonneg (mul_nonneg h0 he.le) he.le]
  · nlinarith

lemma pyInt_intCast (n : ℤ) : pyInt (n : ℝ) = n := by
  unfold pyInt
  split_ifs
  · exact Int.floor_intCast n
  · exact Int.ceil_intCast n

lemma sim_deltas_eq (t r sigma start days k q : ℝ) (rands : ℕ → ℝ) (i : ℕ) :
    sim_deltas t r sigma start days k q rands i =
      (normCdf (sim_d1 r sigma days k q (st_s r q sigma start days rands i)
          (simTerm t days i)) * Real.exp (-q * simTerm t days i),
       (normCdf (sim_d1 r sigma days k q (st_s r q sigma start days rands i)
          (simTerm t days i)) * Real.exp (-q * simTerm t days i) - 1) *
          Real.exp (-q * simTerm t days i)) := by
  cases i with
  | zero =>
      unfold sim_deltas get_greeks getDeltas
      rw [simTerm_zero]
      rfl
  | succ n =>
      unfold sim_deltas get_greeks getDeltas
      rfl

/-! ### Claim theorems -/

/-- C1: for every path, `sim` initializes `price[0]` to the spot price and,
for each subsequent step, computes
`price[i] = price[i-1] + price[i-1]*(r-q)/steps_per_year
+ price[i-1]*sigma_step*shock[i-1]` with
`sigma_step = sigma / sqrt(steps_per_year)` and `shock[i-1]` the previous
standard-normal draw: the simple Euler discretization of GBM. -/
theorem C1_price_path_euler (r q sigma start days : ℝ) (rands : ℕ → ℝ) :
    st_s r q sigma start days rands 0 = start ∧
    ∀ i : ℕ, st_s r q sigma start days rands (i + 1) =
      st_s r q sigma start days rands i +
        st_s r q sigma start days rands i * (r - q) / days +
        st_s r q sigma start days rands i * (sigma / Real.sqrt days) * rands i := by
  refine ⟨rfl, fun i => ?_⟩
  rfl

/-- C7: the compounded-cash ledger of `sim` satisfies
`cumulative[0] = cashflow[0]` and, for every step `i >= 1`,
`cumulative[i] = cumulative[i-1]*exp(rf/steps_per_year) + cashflow[i]`,
on both the call and the put side. -/
theorem C7_cash_compounding (t r rf sigma start days k q : ℝ) (rands : ℕ → ℝ) :
    sim_total_cf t r rf sigma start days k q rands 0 =
      sim_cf t r rf sigma start days k q rands 0 ∧
    ∀ i : ℕ,
      (sim_total_cf t r rf sigma start days k q rands (i + 1)).1 =
        (sim_total_cf t r rf sigma start days k q rands i).1 * Real.exp (rf / days) +
          (sim_cf t r rf sigma start days k q rands (i + 1)).1 ∧
      (sim_total_cf t r rf sigma start days k q rands (i + 1)).2 =
        (sim_total_cf t r rf sigma start days k q rands i).2 * Real.exp (rf / days) +
          (sim_cf t r rf sigma start days k q rands (i + 1)).2 :=
  ⟨rfl, fun _ => ⟨rfl, rfl⟩⟩

/-- C9: when the step count `int(t*days)` is zero, `sim` fails before
producing any result (the source raises an `IndexError` writing `st_s[0]`
into an empty array) rather than silently returning an empty path. -/
theorem C9_zero_steps_fail (t r rf sigma start days k q : ℝ) (rands : ℕ → ℝ)
    (h : simN t days = 0) : sim t r rf sigma start days k q rands = none := by
  unfold sim
  rw [if_pos (by omega)]

/-- Witness for C9 at `t = 1/2`, `days = 1`: the step count truncates to 0
and `sim` returns no result. -/
theorem C9_witness :
    simN (1 / 2) 1 = 0 ∧ sim (1 / 2) 0 0 1 100 1 100 0 (fun _ => 0) = none := by
  have h : simN (1 / 2 : ℝ) 1 = 0 := by
    unfold simN pyInt
    rw [if_pos (by norm_num)]
    have : ⌊(1 / 2 * 1 : ℝ)⌋ = ⌊(1 / 2 : ℝ)⌋ := by norm_num
    rw [this, Int.floor_eq_zero_iff]
    constructor <;> norm_num
  exact ⟨h, C9_zero_steps_fail (1 / 2) 0 0 1 100 1 100 0 (fun _ => 0) h⟩

/-- C3 (amended): `black_scholes_form` raises exactly when the maturity is
non-positive, the volatility is zero, the strike is zero, or the ratio
spot/strike is non-positive; in particular it returns a result without
error for all strictly positive parameters, but also for strictly negative
volatility (which the original claim said must raise). -/
theorem C3_error_condition (t k s_t rf sigma q : ℝ) :
    (black_scholes_form t k s_t rf sigma q).isSome = true ↔
      (0 < t ∧ sigma ≠ 0 ∧ k ≠ 0 ∧ 0 < s_t / k) := by
  constructor
  · intro h
    unfold black_scholes_form at h
    split_ifs at h with h1 h2 h3 h4
    · simp at h
    · simp at h
    · simp at h
    · simp at h
    · have hsq : Real.sqrt t ≠ 0 := fun hz => h2 (by rw [hz, mul_zero])
      have ht : 0 < t := by
        rcases lt_trichotomy t 0 with hlt | heq | hgt
        · exact absurd hlt h1
        · exact absurd (by rw [heq, Real.sqrt_zero]) hsq
        · exact hgt
      have hsig : sigma ≠ 0 := fun hz => h2 (by rw [hz, zero_mul])
      exact ⟨ht, hsig, h3, not_le.mp h4⟩
  · rintro ⟨ht, hsig, hk, hr⟩
    rw [black_scholes_form_eq_some t k s_t rf sigma q ht hsig hk hr]
    rfl

/-- Counterexample for C3 as stated: with maturity, spot and strike all 1
and volatility -1 <= 0, the pricer does not raise; the negative volatility
simply flows through the formulas. -/
theorem C3_counterexample :
    ((-1 : ℝ) ≤ 0) ∧ (black_scholes_form 1 1 1 0 (-1) 0).isSome = true := by
  refine ⟨by norm_num, ?_⟩
  rw [black_scholes_form_eq_some 1 1 1 0 (-1) 0 (by norm_num) (by norm_num)
    (by norm_num) (by norm_num)]
  rfl

/-- C4: for strictly positive maturity, volatility, spot and strike, the
call and put prices returned by `black_scholes_form` satisfy put-call
parity `c - p = spot*exp(-q*t) - strike*exp(-rf*t)` to within 1e-8 (in the
real-number model the identity is exact). -/
theorem C4_put_call_parity (t k s_t rf sigma q : ℝ)
    (ht : 0 < t) (hsig : 0 < sigma) (hs : 0 < s_t) (hk : 0 < k) :
    ∃ c p d1 d2, black_scholes_form t k s_t rf sigma q = some (c, p, d1, d2) ∧
      |c - p - (s_t * Real.exp (-q * t) - k * Real.exp (-rf * t))| ≤ 1e-8 := by
  refine ⟨bs_call t k s_t rf sigma q, bs_put t k s_t rf sigma q,
    bs_d1 t k s_t rf sigma q, bs_d2 t k s_t rf sigma q,
    black_scholes_form_eq_some t k s_t rf sigma q ht hsig.ne' hk.ne'
      (div_pos hs hk), ?_⟩
  have h1 := normCdf_add_normCdf_neg (bs_d1 t k s_t rf sigma q)
  have h2 := normCdf_add_normCdf_neg (bs_d2 t k s_t rf sigma q)
  have hzero : bs_call t k s_t rf sigma q - bs_put t k s_t rf sigma q -
      (s_t * Real.exp (-q * t) - k * Real.exp (-rf * t)) = 0 := by
    unfold bs_call bs_put
    linear_combination (s_t * Real.exp (-q * t)) * h1 - (k * Real.exp (-rf * t)) * h2
  rw [hzero, abs_zero]
  norm_num

/-- Witness for C4 at `t = k = s_t = sigma = 1`, `rf = q = 0`. -/
theorem C4_witness :
    ∃ c p d1 d2, black_scholes_form 1 1 1 0 1 0 = some (c, p, d1, d2) ∧
      |c - p - ((1 : ℝ) * Real.exp (-0 * 1) - 1 * Real.exp (-0 * 1))| ≤ 1e-8 :=
  C4_put_call_parity 1 1 1 0 1 0 (by norm_num) (by norm_num) (by norm_num)
    (by norm_num)

/-- C5 (amended): the FULL and DELTA_ONLY branches of `get_greeks` return
the same call delta `N(d1)*exp(-q*t)`, but their put deltas differ —
DELTA_ONLY computes `(call_delta - 1)*exp(-q*t)` while FULL computes
`call_delta - exp(-q*t)` — and the two (call delta, put delta) pairs
coincide whenever `q * t = 0`, in particular for zero dividend yield. -/
theorem C5_delta_mode_agreement (t k r sigma d1 d2 s q : ℝ) (hqt : q * t = 0) :
    getDeltas (get_greeks t k r sigma d1 d2 s q true false) =
      getDeltas (get_greeks t k r sigma d1 d2 s q false false) := by
  have h : Real.exp (-q * t) = 1 := by
    rw [show -q * t = -(q * t) by ring, hqt, neg_zero, Real.exp_zero]
  unfold get_greeks getDeltas
  simp only [if_pos, if_neg, Bool.false_eq_true, ite_false, ite_true, h]
  exact Prod.ext (by ring) (by ring)

/-- Witness for C5 at `q = 0`, `t = 1`, `d1 = 0`: the two modes agree. -/
theorem C5_witness :
    getDeltas (get_greeks 1 1 0 1 0 0 1 0 true false) =
      getDeltas (get_greeks 1 1 0 1 0 0 1 0 false false) :=
  C5_delta_mode_agreement 1 1 0 1 0 0 1 0 (by norm_num)

/-- Counterexample for C5 as stated: at `q = 1`, `t = 1`, `d1 = 0` the
DELTA_ONLY pair and the FULL pair differ (their put deltas are
`(N(0)*exp(-1) - 1)*exp(-1)` and `N(0)*exp(-1) - exp(-1)` respectively). -/
theorem C5_counterexample :
    getDeltas (get_greeks 1 1 0 1 0 0 1 1 true false) ≠
      getDeltas (get_greeks 1 1 0 1 0 0 1 1 false false) := by
  intro h
  have h2 := congrArg Prod.snd h
  unfold get_greeks getDeltas at h2
  simp only [if_pos, if_neg, Bool.false_eq_true, ite_false, ite_true,
    normCdf_zero] at h2
  set E := Real.exp (-1 * 1) with hE
  have hEpos : 0 < E := Real.exp_pos _
  have hsq : E ^ 2 = E := by nlinarith [h2]
  have hE1 : E = 1 := by nlinarith
  rw [hE] at hE1
  rw [Real.exp_eq_one_iff] at hE1
  norm_num at hE1

/-- C6 (amended): at every step `i` of a simulated path and for every
nonnegative dividend yield, the stored call delta lies in
`[0, exp(-q*term_i)]` and the stored put delta in `[-exp(-q*term_i), 0]`,
where `term_i = t - i/steps_per_year` is the remaining time actually used
at step `i` (the bounds with the total maturity `T` in the exponent, as
originally claimed, fail because the snapshots discount by the remaining
time, and the DELTA_ONLY put formula applies the dividend discount twice). -/
theorem C6_delta_bounds (t r sigma start days k q : ℝ) (rands : ℕ → ℝ) (i : ℕ)
    (hq : 0 ≤ q) (hd : 0 < days) (hi : i < simNn t days) :
    0 ≤ (sim_deltas t r sigma start days k q rands i).1 ∧
    (sim_deltas t r sigma start days k q rands i).1 ≤
      Real.exp (-q * simTerm t days i) ∧
    -Real.exp (-q * simTerm t days i) ≤
      (sim_deltas t r sigma start days k q rands i).2 ∧
    (sim_deltas t r sigma start days k q rands i).2 ≤ 0 := by
  have hterm := simTerm_pos t days i hd hi
  have hE : 0 < Real.exp (-q * simTerm t days i) := Real.exp_pos _
  have hE1 : Real.exp (-q * simTerm t days i) ≤ 1 := by
    rw [Real.exp_le_one_iff]
    have := mul_nonneg hq hterm.le
    linarith
  rw [sim_deltas_eq]
  exact normCdf_mul_exp_bounds _ _ hE hE1

/-- Witness for C6 at `t = days = 1`, `q = 0`, step 0 of the all-zero-shock
path. -/
theorem C6_witness :
    0 ≤ (sim_deltas 1 0 1 1 1 1 0 (fun _ => 0) 0).1 ∧
    (sim_deltas 1 0 1 1 1 1 0 (fun _ => 0) 0).1 ≤
      Real.exp (-0 * simTerm 1 1 0) ∧
    -Real.exp (-0 * simTerm 1 1 0) ≤ (sim_deltas 1 0 1 1 1 1 0 (fun _ => 0) 0).2 ∧
    (sim_deltas 1 0 1 1 1 1 0 (fun _ => 0) 0).2 ≤ 0 :=
  C6_delta_bounds 1 0 1 1 1 1 0 (fun _ => 0) 0 (by norm_num) (by norm_num)
    (by
      unfold simNn simN
      rw [show ((1 : ℝ) * 1) = ((1 : ℤ) : ℝ) by norm_num, pyInt_intCast]
      norm_num)

/-- Counterexample for C6 as stated: with maturity 1, two steps per year,
volatility `sqrt 2`, spot 1, strike `exp(1/4)` and dividend yield
`-log 16`, the put delta stored at step 1 of the zero-shock path equals 4,
which is strictly positive and so outside the claimed interval
`[-exp(-q*T), 0]`; step 1 is a real step since the path has 2 entries. -/
theorem C6_counterexample :
    1 < simNn 1 2 ∧
    0 < (sim_deltas 1 (-Real.log 16) (Real.sqrt 2) 1 2 (Real.exp (1 / 4))
        (-Real.log 16) (fun _ => 0) 1).2 := by
  have hN : simNn 1 2 = 2 := by
    unfold simNn simN
    rw [show ((1 : ℝ) * 2) = ((2 : ℤ) : ℝ) by norm_num, pyInt_intCast]
    rfl
  refine ⟨by omega, ?_⟩
  have hsd : sigma_daily (Real.sqrt 2) 2 = 1 := by
    unfold sigma_daily
    exact div_self (by
      rw [Ne, Real.sqrt_eq_zero']
      push_neg
      norm_num)
  have hst : st_s (-Real.log 16) (-Real.log 16) (Real.sqrt 2) 1 2 (fun _ => 0) 1 = 1 := by
    show st_s (-Real.log 16) (-Real.log 16) (Real.sqrt 2) 1 2 (fun _ => 0) (0 + 1) = 1
    unfold st_s
    simp [st_s]
  have hterm : simTerm 1 2 1 = 1 / 2 := by
    unfold simTerm
    norm_num
  have hd1 : sim_d1 (-Real.log 16) (Real.sqrt 2) 2 (Real.exp (1 / 4))
      (-Real.log 16) 1 (1 / 2) = 0 := by
    unfold sim_d1
    rw [hsd]
    rw [show ((1 : ℝ) / Real.exp (1 / 4)) = (Real.exp (1 / 4))⁻¹ by ring,
      Real.log_inv, Real.log_exp]
    ring
  have hexp : Real.exp (-(-Real.log 16) * (1 / 2)) = 4 := by
    have h16 : Real.log 16 = 2 * Real.log 4 := by
      rw [show (16 : ℝ) = 4 ^ 2 by norm_num, Real.log_pow]
      push_cast
      ring
    rw [show -(-Real.log 16) * (1 / 2 : ℝ) = Real.log 16 / 2 by ring, h16,
      show (2 : ℝ) * Real.log 4 / 2 = Real.log 4 by ring]
    exact Real.exp_log (by norm_num)
  rw [sim_deltas_eq, hterm, hst, hd1, hexp, normCdf_zero]
  norm_num

/-- C8 (amended): every DELTA_ONLY greek snapshot taken by `sim` at step
`i` (including `i = 0`) uses the remaining time `t - i/steps_per_year`, the
per-step rate `r/steps_per_year`, the per-step volatility and the price
`price[i]`; the remaining time used at the terminal step `N-1` is
`t - (N-1)/steps_per_year`, which is strictly positive — not exactly 0 as
originally claimed. -/
theorem C8_remaining_time (t r sigma start days k q : ℝ) (rands : ℕ → ℝ)
    (hd : 0 < days) (hN : 1 ≤ simNn t days) :
    (∀ i : ℕ, sim_deltas t r sigma start days k q rands i =
      getDeltas (get_greeks (t - i / days) k (r / days) (sigma_daily sigma days)
        (sim_d1 r sigma days k q (st_s r q sigma start days rands i) (t - i / days))
        (sim_d2 r sigma days k q (st_s r q sigma start days rands i) (t - i / days))
        (st_s r q sigma start days rands i) q true false)) ∧
    0 < simTerm t days (simNn t days - 1) := by
  constructor
  · intro i
    cases i with
    | zero =>
        show sim_deltas t r sigma start days k q rands 0 = _
        unfold sim_deltas
        norm_num [st_s]
    | succ n =>
        show sim_deltas t r sigma start days k q rands (n + 1) = _
        unfold sim_deltas simTerm
        rfl
  · exact simTerm_pos t days (simNn t days - 1) hd (by omega)

/-- Witness for C8 at `t = days = 1` with all-zero shocks: the snapshot at
step 0 uses remaining time `1 - 0/1` and the terminal remaining time is
positive. -/
theorem C8_witness :
    (∀ i : ℕ, sim_deltas 1 0 1 1 1 1 0 (fun _ => 0) i =
      getDeltas (get_greeks (1 - i / 1) 1 (0 / 1) (sigma_daily 1 1)
        (sim_d1 0 1 1 1 0 (st_s 0 0 1 1 1 (fun _ => 0) i) (1 - i / 1))
        (sim_d2 0 1 1 1 0 (st_s 0 0 1 1 1 (fun _ => 0) i) (1 - i / 1))
        (st_s 0 0 1 1 1 (fun _ => 0) i) 0 true false)) ∧
    0 < simTerm 1 1 (simNn 1 1 - 1) :=
  C8_remaining_time 1 0 1 1 1 1 0 (fun _ => 0) (by norm_num)
    (by
      unfold simNn simN
      rw [show ((1 : ℝ) * 1) = ((1 : ℤ) : ℝ) by norm_num, pyInt_intCast]
      norm_num)

/-- Counterexample for C8 as stated: with maturity 1 and 2 steps per year
the path has 2 entries and the remaining time used at the terminal step is
`1 - 1/2 = 1/2`, not exactly 0. -/
theorem C8_counterexample :
    simNn 1 2 = 2 ∧ simTerm 1 2 (simNn 1 2 - 1) ≠ 0 := by
  have hN : simNn 1 2 = 2 := by
    unfold simNn simN
    rw [show ((1 : ℝ) * 2) = ((2 : ℤ) : ℝ) by norm_num, pyInt_intCast]
    rfl
  refine ⟨hN, ?_⟩
  rw [hN]
  unfold simTerm
  norm_num

/-- C2 (amended): the Aggregator's empirical option price equals the
average raw P&L plus the average total cash flow plus the average of the
unclipped unwind difference — `strike - terminal` on the call side and
`terminal - strike` on the put side (not the negated clipped payoffs
`-max(terminal - strike, 0)` / `-max(strike - terminal, 0)` of the
original claim). -/
theorem C2_empirical_price (t : ℝ) (runs : ℕ) (r rf sigma start days K q : ℝ)
    (shocks : ℕ → ℕ → ℝ) :
    rs_op_price t runs r rf sigma start days K q shocks =
      ((∑ j ∈ Finset.range runs, (sim_pnl t r sigma start days K q (shocks j)).1) / runs +
        (∑ j ∈ Finset.range runs, (sim_cf_sum t r rf sigma start days K q (shocks j)).1) / runs +
        (∑ j ∈ Finset.range runs,
          (K - st_s r q sigma start days (shocks j) (simNn t days - 1))) / runs,
       (∑ j ∈ Finset.range runs, (sim_pnl t r sigma start days K q (shocks j)).2) / runs +
        (∑ j ∈ Finset.range runs, (sim_cf_sum t r rf sigma start days K q (shocks j)).2) / runs +
        (∑ j ∈ Finset.range runs,
          (st_s r q sigma start days (shocks j) (simNn t days - 1) - K)) / runs) := rfl

/-- Counterexample for C2 as stated: one path, one step, spot 1, strike 2,
zero shocks.  The terminal price is 1, so the claimed call-side unwind cost
`-max(1 - 2, 0)` is 0, while the code adds `K - S_T = 1`; the two empirical
call prices differ by 1. -/
theorem C2_counterexample :
    (rs_op_price 1 1 0 0 1 1 1 2 0 (fun _ _ => 0)).1 ≠
      (rs_pnl_total 1 1 0 1 1 1 2 0 (fun _ _ => 0)).1 +
        (rs_cf_total 1 1 0 0 1 1 1 2 0 (fun _ _ => 0)).1 +
        (∑ j ∈ Finset.range 1,
          -max (rs_terminal 1 0 1 1 1 0 (fun _ _ => 0) j - 2) 0) / 1 := by
  have hN : simNn 1 1 = 1 := by
    unfold simNn simN
    rw [show ((1 : ℝ) * 1) = ((1 : ℤ) : ℝ) by norm_num, pyInt_intCast]
    rfl
  have hterm : rs_terminal 1 0 1 1 1 0 (fun _ _ => 0) 0 = 1 := by
    unfold rs_terminal
    rw [hN]
    norm_num [st_s]
  unfold rs_op_price
  intro h
  simp only [Finset.sum_range_one, hterm] at h
  norm_num at h

/-- C10: although the Aggregator stores per-path cash with the slice
assignment `cash[i:] = ...` (broadcasting path `i`'s cash into all rows at
index `>= i`), after the loop over all paths completes row `j` of the cash
matrix equals path `j`'s final cumulative cash, because iteration `j` is
the last one to write row `j`; consequently the reported average financed
cash is the arithmetic mean of the per-path final cash values. -/
theorem C10_cash_rows (t : ℝ) (runs : ℕ) (r rf sigma start days K q : ℝ)
    (shocks : ℕ → ℕ → ℝ) (j : ℕ) (hj : j < runs) :
    rs_cashMat (fun i => sim_cash t r rf sigma start days K q (shocks i)) runs j =
      sim_cash t r rf sigma start days K q (shocks j) ∧
    rs_cash_avg t runs r rf sigma start days K q shocks =
      ((∑ i ∈ Finset.range runs,
          (sim_cash t r rf sigma start days K q (shocks i)).1) / runs,
       (∑ i ∈ Finset.range runs,
          (sim_cash t r rf sigma start days K q (shocks i)).2) / runs) := by
  constructor
  · exact rs_cashMat_eq _ runs j hj
  · unfold rs_cash_avg
    refine Prod.ext ?_ ?_ <;>
      · show (∑ i ∈ Finset.range runs, _) / (runs : ℝ) = _
        congr 1
        refine Finset.sum_congr rfl fun i hi => ?_
        rw [rs_cashMat_eq _ runs i (Finset.mem_range.mp hi)]

/-- Witness for C10 with two paths of one step each. -/
theorem C10_witness :
    rs_cashMat (fun i => sim_cash 1 0 0 1 1 1 1 0 ((fun _ _ => 0) i)) 2 0 =
      sim_cash 1 0 0 1 1 1 1 0 ((fun _ _ => 0) 0) ∧
    rs_cash_avg 1 2 0 0 1 1 1 1 0 (fun _ _ => 0) =
      ((∑ i ∈ Finset.range 2, (sim_cash 1 0 0 1 1 1 1 0 ((fun _ _ => 0) i)).1) / 2,
       (∑ i ∈ Finset.range 2, (sim_cash 1 0 0 1 1 1 1 0 ((fun _ _ => 0) i)).2) / 2) :=
  C10_cash_rows 1 2 0 0 1 1 1 1 0 (fun _ _ => 0) 0 (by norm_num)

end OptionsSim
